import Mathlib

/-!
Verification of the HTTP/1.1 server engine (Brownie44l1/http1.1).

Shallow embedding of the components the claims refer to:

* the Header Store (`internal/headers/headers.go`): case-insensitive
  multi-valued map with tracking of protocol-critical headers and an
  incremental `Parse`;
* the request-line parser (`internal/request/requestline.go`);
* the chunked-body sub-parser (`internal/request/body.go`);
* the incremental request parser (`parser.parseFromReader` and friends);
* the response `Writer` (`internal/response/response.go`);
* the keep-alive policy and the parse-error classification of
  `handleConnection` (`internal/server/conn.go`, the variant taking the
  `shuttingDown` flag).

Bytes are modelled as `Char` values (all relevant wire data is ASCII);
Go byte slices become `List Char`, Go strings become `String`.
Go's in-place mutation becomes explicit state passing; fallible
operations return `Except`/`Option`.  Loops whose termination relies on
consuming input are written with an explicit fuel parameter sized from
the input, so every definition is a computable `def` that the kernel can
evaluate on concrete inputs.
-/

set_option maxRecDepth 4000

-- Structural decidable equality for `Except`, used to state results of
-- fallible operations as decidable equations.
deriving instance DecidableEq for Except

namespace Http

/-! ### Byte and string helpers (Go standard-library functions used by the source) -/

/-- ASCII lower-casing of one character, as `strings.ToLower` acts on ASCII. -/
def lowerChar (c : Char) : Char :=
  if 'A' ≤ c ∧ c ≤ 'Z' then Char.ofNat (c.toNat + 32) else c

/-- Go `strings.ToLower` restricted to ASCII input. -/
def lowerStr (s : String) : String :=
  ⟨s.data.map lowerChar⟩

/-- Whitespace set trimmed by `bytes.TrimSpace` on ASCII data. -/
def isSpaceByte (c : Char) : Bool :=
  c = ' ' ∨ c = '\t' ∨ c = '\n' ∨ c = '\x0b' ∨ c = '\x0c' ∨ c = '\r'

/-- Go `bytes.TrimSpace` on ASCII data: drop whitespace at both ends. -/
def trimSpace (l : List Char) : List Char :=
  (((l.dropWhile isSpaceByte).reverse).dropWhile isSpaceByte).reverse

/-- Index of the first occurrence of CRLF, as `bytes.Index(data, []byte("\r\n"))`. -/
def findCRLF : List Char → Option Nat
  | [] => none
  | ['\r'] => none
  | '\r' :: '\n' :: _ => some 0
  | _ :: rest => (findCRLF rest).map (· + 1)

/-- Index of the first occurrence of CRLFCRLF, as
`bytes.Index(data, []byte("\r\n\r\n"))`. -/
def findCRLFCRLF : List Char → Option Nat
  | '\r' :: '\n' :: '\r' :: '\n' :: _ => some 0
  | [] => none
  | _ :: rest => (findCRLFCRLF rest).map (· + 1)

/-- Index of the first occurrence of character `c`, as `bytes.IndexByte`. -/
def findChar (c : Char) : List Char → Option Nat
  | [] => none
  | x :: rest => if x = c then some 0 else (findChar c rest).map (· + 1)

/-- Go `bytes.Cut(line, []byte{':'})`: split around the first colon. -/
def cutColon (l : List Char) : Option (List Char × List Char) :=
  match findChar ':' l with
  | none => none
  | some i => some (l.take i, l.drop (i + 1))

/-- Go `bytes.SplitN(s, sep, n)` for a one-byte separator: at most `n` parts,
the last part keeps the remaining separators. -/
def splitNChar (sep : Char) : Nat → List Char → List (List Char)
  | 0, _ => []
  | 1, l => [l]
  | n + 2, l =>
    match findChar sep l with
    | none => [l]
    | some i => l.take i :: splitNChar sep (n + 1) (l.drop (i + 1))

/-- Go `strconv.ParseInt(s, 10, 64)` (no underscores in base 10):
optional sign, one or more decimal digits, 64-bit range check. -/
def goParseInt10 (s : String) : Option Int :=
  let l := s.data
  let (neg, ds) : Bool × List Char :=
    match l with
    | '+' :: rest => (false, rest)
    | '-' :: rest => (true, rest)
    | _ => (false, l)
  if ds = [] then none
  else if ds.all (fun c => '0' ≤ c ∧ c ≤ '9') then
    let n : Nat := ds.foldl (fun acc c => acc * 10 + (c.toNat - 48)) 0
    if neg then
      if n ≤ 2 ^ 63 then some (-(n : Int)) else none
    else
      if n ≤ 2 ^ 63 - 1 then some (n : Int) else none
  else none

/-- One hexadecimal digit's value, if the character is a hex digit. -/
def hexDigit (c : Char) : Option Nat :=
  if '0' ≤ c ∧ c ≤ '9' then some (c.toNat - 48)
  else if 'a' ≤ c ∧ c ≤ 'f' then some (c.toNat - 87)
  else if 'A' ≤ c ∧ c ≤ 'F' then some (c.toNat - 55)
  else none

/-- Go `strconv.ParseInt(s, 16, 64)`: optional sign, hex digits, 64-bit range. -/
def goParseInt16 (s : String) : Option Int :=
  let l := s.data
  let (neg, ds) : Bool × List Char :=
    match l with
    | '+' :: rest => (false, rest)
    | '-' :: rest => (true, rest)
    | _ => (false, l)
  if ds = [] then none
  else if ds.all (fun c => (hexDigit c).isSome) then
    let n : Nat := ds.foldl (fun acc c => acc * 16 + ((hexDigit c).getD 0)) 0
    if neg then
      if n ≤ 2 ^ 63 then some (-(n : Int)) else none
    else
      if n ≤ 2 ^ 63 - 1 then some (n : Int) else none
  else none

/-! ### Header Store (`internal/headers/headers.go`) -/

/-- Error values of the headers package.  Distinct Go sentinel `error`
values become distinct constructors; `fmt.Errorf`-wrapped ones get their
own constructors (they compare unequal to every sentinel under Go `==`). -/
inductive HError
  | duplicateContentLength
  | conflictingContentLength
  | duplicateHost
  | duplicateTransferEncoding
  | bothChunkedAndLength
  | obsoleteLineFolding
  | malformedHeader
  | invalidHeaderChar (c : Char)
  | tooManyHeaders
  | headerTooLarge
  | invalidContentLength
  | invalidValueChar
  deriving DecidableEq, Repr

/-- Source `headerTracking`: tracking state for protocol-critical fields. -/
structure HeaderTracking where
  seenHost : Bool := false
  seenContentLength : Bool := false
  contentLengthValue : Int := 0
  seenTransferEncoding : Bool := false
  isChunked : Bool := false
  headerCount : Nat := 0
  totalSize : Nat := 0
  deriving DecidableEq, Repr

/-- The Header Store.  Go's `map[string][]string` is modelled as an
association list keyed by the lower-cased name (iteration order of the Go
map is irrelevant to every claim below). -/
structure Headers where
  headers : List (String × List String) := []
  tracking : HeaderTracking := {}
  deriving DecidableEq, Repr

def NewHeaders : Headers := {}

/-- Map lookup `h.headers[key]` (missing key yields the empty slice). -/
def mapGet (m : List (String × List String)) (k : String) : List String :=
  match m.find? (fun p => p.1 = k) with
  | none => []
  | some p => p.2

/-- Map store `m[key] = vs` (replace if present, insert otherwise). -/
def mapPut (m : List (String × List String)) (k : String) (vs : List String) :
    List (String × List String) :=
  if m.any (fun p => p.1 = k) then
    m.map (fun p => if p.1 = k then (k, vs) else p)
  else
    m ++ [(k, vs)]

/-- Map delete `delete(m, key)`. -/
def mapDel (m : List (String × List String)) (k : String) :
    List (String × List String) :=
  m.filter (fun p => ¬ p.1 = k)

namespace Headers

/-- Source `Get`: first value for a header, with the found flag. -/
def Get (h : Headers) (key : String) : Option String :=
  match mapGet h.headers (lowerStr key) with
  | [] => none
  | v :: _ => some v

/-- Source `GetAll`: all values for a header. -/
def GetAll (h : Headers) (key : String) : List String :=
  mapGet h.headers (lowerStr key)

/-- Source `Set`: replace all values for a header. -/
def Set (h : Headers) (key value : String) : Headers :=
  { h with headers := mapPut h.headers (lowerStr key) [value] }

/-- Source `Add`: append a value to a header (validation bypassed). -/
def Add (h : Headers) (key value : String) : Headers :=
  { h with headers :=
      mapPut h.headers (lowerStr key) (mapGet h.headers (lowerStr key) ++ [value]) }

/-- Source `Del`: remove a header. -/
def Del (h : Headers) (key : String) : Headers :=
  { h with headers := mapDel h.headers (lowerStr key) }

/-- Source `IsChunked`: the tracking flag set by `Transfer-Encoding: chunked`. -/
def IsChunked (h : Headers) : Bool :=
  h.tracking.isChunked

/-- Source `ContentLength`: tracked Content-Length value, `-1` if not present. -/
def ContentLength (h : Headers) : Int :=
  if h.tracking.seenContentLength then h.tracking.contentLengthValue else -1

end Headers

/-- Source `isValidHeaderChar`: the RFC 7230 token characters accepted by the source. -/
def isValidHeaderChar (b : Char) : Bool :=
  ('A' ≤ b ∧ b ≤ 'Z') ∨ ('a' ≤ b ∧ b ≤ 'z') ∨ ('0' ≤ b ∧ b ≤ '9') ∨
  b = '!' ∨ b = '#' ∨ b = '$' ∨ b = '%' ∨ b = '&' ∨
  b = '\'' ∨ b = '*' ∨ b = '+' ∨ b = '-' ∨ b = '.' ∨
  b = '^' ∨ b = '_' ∨ b = '`' ∨ b = '|' ∨ b = '~'

/-- Source `parseHeader(line)`: split a field line into name and value. -/
def parseHeader (line : List Char) : Except HError (String × String) :=
  match cutColon line with
  | none => .error .malformedHeader
  | some (name, value) =>
    if name.any (fun c => c = ' ' ∨ c = '\t') then
      .error .malformedHeader
    else if name = [] then
      .error .malformedHeader
    else
      match name.find? (fun b => ¬ isValidHeaderChar b) with
      | some b => .error (.invalidHeaderChar b)
      | none =>
        if value.any (fun c => c = '\x00' ∨ c = '\r' ∨ c = '\n') then
          .error .invalidValueChar
        else
          .ok (⟨name⟩, ⟨trimSpace value⟩)

/-- Source `addWithValidation(name, value)`: store with per-header validation. -/
def Headers.addWithValidation (h : Headers) (name value : String) :
    Except HError Headers :=
  let nameLower := lowerStr name
  if nameLower = "host" then
    if h.tracking.seenHost then .error .duplicateHost
    else .ok { h with
      tracking := { h.tracking with seenHost := true },
      headers := mapPut h.headers nameLower [value] }
  else if nameLower = "content-length" then
    match goParseInt10 value with
    | none => .error .invalidContentLength
    | some cl =>
      if cl < 0 then .error .invalidContentLength
      else if h.tracking.seenContentLength then
        if h.tracking.contentLengthValue ≠ cl then .error .conflictingContentLength
        else .ok h
      else .ok { h with
        tracking := { h.tracking with
          seenContentLength := true, contentLengthValue := cl },
        headers := mapPut h.headers nameLower [value] }
  else if nameLower = "transfer-encoding" then
    if h.tracking.seenTransferEncoding then .error .duplicateTransferEncoding
    else
      let tr := { h.tracking with seenTransferEncoding := true }
      let tr := if lowerStr ⟨trimSpace value.data⟩ = "chunked"
        then { tr with isChunked := true } else tr
      .ok { h with tracking := tr, headers := mapPut h.headers nameLower [value] }
  else
    .ok { h with
           headers := mapPut h.headers nameLower
             (mapGet h.headers nameLower ++ [value]) }

/-- Source `validateFinal`: reject `Transfer-Encoding: chunked` together with
`Content-Length` once the terminator is seen. -/
def Headers.validateFinal (h : Headers) : Option HError :=
  if h.tracking.isChunked ∧ h.tracking.seenContentLength then
    some .bothChunkedAndLength
  else none

/-- Limits of the headers package. -/
def MaxHeaderLines : Nat := 100
def MaxHeaderSize : Nat := 1 <<< 20

/-- Result of `Headers.Parse`: bytes consumed, completion flag, error, and
the (mutated) store. -/
structure HParseOut where
  read : Nat
  done : Bool
  err : Option HError
  hs : Headers
  deriving DecidableEq, Repr

/-- The loop body of `Headers.Parse`.  `fuel` bounds the number of
iterations; every continuing iteration consumes at least two bytes, so
`data.length + 1` is always enough fuel (the fuel-exhausted branch is
unreachable from the entry point and returns the "need more data" shape). -/
def parseHeadersLoop (h : Headers) (data : List Char) (read : Nat) :
    Nat → HParseOut
  | 0 => ⟨read, false, none, h⟩
  | fuel + 1 =>
    if h.tracking.headerCount ≥ MaxHeaderLines then
      ⟨read, false, some .tooManyHeaders, h⟩
    else if h.tracking.totalSize ≥ MaxHeaderSize then
      ⟨read, false, some .headerTooLarge, h⟩
    else
      match findCRLF (data.drop read) with
      | none => ⟨read, false, none, h⟩
      | some idx =>
        if idx = 0 then
          ⟨read + 2, true, h.validateFinal, h⟩
        else
          let line := (data.drop read).take idx
          let h := { h with tracking :=
            { h.tracking with totalSize := h.tracking.totalSize + line.length } }
          if line.head? = some ' ' ∨ line.head? = some '\t' then
            ⟨read, false, some .obsoleteLineFolding, h⟩
          else
            match parseHeader line with
            | .error e => ⟨read, false, some e, h⟩
            | .ok (name, value) =>
              match h.addWithValidation name value with
              | .error e => ⟨read, false, some e, h⟩
              | .ok h =>
                let h := { h with tracking :=
                  { h.tracking with headerCount := h.tracking.headerCount + 1 } }
                parseHeadersLoop h data (read + idx + 2) fuel

/-- Source `Headers.Parse(data)`: consume complete field lines from `data`,
reporting bytes consumed, whether the blank-line terminator was reached,
and the first error. -/
def Headers.Parse (h : Headers) (data : List Char) : HParseOut :=
  parseHeadersLoop h data 0 (data.length + 1)

/-! ### Request data and errors (`internal/request`) -/

/-- Error values surfaced by the request package.  Again each Go sentinel
is a distinct constructor; errors propagated unchanged from the headers
package are wrapped in `headerErr` (they are distinct Go values from the
request package's sentinels, e.g. `request.ErrHeaderTooLarge` is not
`headers.ErrHeaderTooLarge`).  `unexpectedEof` is the fresh
`errors.New("unexpected EOF")` value created in `parseFromReader`;
`eofSentinel` is `io.EOF`, and `timeoutSentinel` a `*net.TimeoutError`,
kept so the connection loop's classification can be stated; `outOfFuel`
is a modelling artifact and unreachable from any entry point used below,
whose fuel is sized to the total input. -/
inductive ReqError
  | malformedRequestLine
  | invalidMethod
  | invalidPath
  | unsupportedVersion
  | requestLineTooLarge
  | uriTooLong
  | headerTooLarge
  | tooManyHeaders
  | bodyTooLarge
  | invalidChunkSize
  | chunkTooLarge
  | chunkSizeLineTooLong
  | invalidChunkFormat
  | invalidChunkExtension
  | trailerTooLarge
  | nulInTrailer
  | missingContentLength
  | headerErr (e : HError)
  | unexpectedEof
  | eofSentinel
  | timeoutSentinel
  | readError
  | outOfFuel
  deriving DecidableEq, Repr

/-- A parsed request (`part_010`'s `Request`). -/
structure Request where
  Method : String := ""
  Path : String := ""
  Version : String := ""
  Headers : Headers := {}
  Body : List Char := []
  deriving DecidableEq, Repr

def NewRequest : Request := {}

/-- Source `Request.IsHTTP10`. -/
def Request.IsHTTP10 (r : Request) : Bool :=
  r.Version = "HTTP/1.0"

/-- Source `Request.ContentLength`: `Content-Length` header value or `-1`.
Unlike the store's tracked value this re-parses the stored string. -/
def Request.ContentLength (r : Request) : Int :=
  match r.Headers.Get "content-length" with
  | none => -1
  | some cl =>
    match goParseInt10 cl with
    | none => -1
    | some n => n

/-- Source `Request.IsChunked`: exact (case-sensitive) comparison of the stored
`Transfer-Encoding` value with `"chunked"`. -/
def Request.IsChunked (r : Request) : Bool :=
  match r.Headers.Get "transfer-encoding" with
  | none => false
  | some te => te = "chunked"

/-! ### Request-line parser (`internal/request/requestline.go`) -/

/-- Source `isValidMethod`. -/
def isValidMethod (m : String) : Bool :=
  m = "GET" ∨ m = "POST" ∨ m = "PUT" ∨ m = "DELETE" ∨
  m = "PATCH" ∨ m = "HEAD" ∨ m = "OPTIONS"

/-- Source `isValidPath`: non-empty; `/...`, `*`, and anything else (taken as
absolute-form) are accepted. -/
def isValidPath (p : String) : Bool :=
  if p.data = [] then false
  else if p.data.head? = some '/' then true
  else if p = "*" then true
  else true

/-- Source `isValidVersion`. -/
def isValidVersion (v : String) : Bool :=
  v = "HTTP/1.0" ∨ v = "HTTP/1.1"

/-- Result of `parseRequestLine`: method, path, version, bytes consumed
(0 means "need more data"). -/
structure ReqLineOut where
  method : String
  path : String
  version : String
  consumed : Nat
  deriving DecidableEq, Repr

/-- Source `parseRequestLine(data)`: split `METHOD PATH VERSION\r\n` with
`bytes.SplitN(line, " ", 3)` and validate each part. -/
def parseRequestLine (data : List Char) : Except ReqError ReqLineOut :=
  match findCRLF data with
  | none => .ok ⟨"", "", "", 0⟩
  | some idx =>
    let line := data.take idx
    let consumed := idx + 2
    match splitNChar ' ' 3 line with
    | [m, p, v] =>
      if ¬ isValidMethod ⟨m⟩ then .error .invalidMethod
      else if ¬ isValidPath ⟨p⟩ then .error .invalidPath
      else if ¬ isValidVersion ⟨v⟩ then .error .unsupportedVersion
      else .ok ⟨⟨m⟩, ⟨p⟩, ⟨v⟩, consumed⟩
    | _ => .error .malformedRequestLine

/-! ### Chunked-body sub-parser (`internal/request/body.go`) -/

def maxChunkSize : Nat := 10 * 1024 * 1024
def maxTotalBodySize : Nat := 50 * 1024 * 1024
def maxChunkSizeLine : Nat := 1024

/-- The chunk sub-parser's state names. -/
inductive ChunkState
  | size | data | dataCRLF | trailer | done
  deriving DecidableEq, Repr

/-- Source `chunkParser`: current sub-state, declared size, bytes read of the
current chunk, and total body size so far. -/
structure ChunkParser where
  state : ChunkState := .size
  chunkSize : Int := 0
  chunkRead : Int := 0
  totalBodySize : Int := 0
  deriving DecidableEq, Repr

/-- Source `parseChunkSize(data)`: parse `SIZE[;extensions]\r\n`, bounded by
`maxChunkSizeLine`; 0 consumed means "need more data". -/
def parseChunkSize (p : ChunkParser) (data : List Char) :
    Except ReqError (ChunkParser × Nat) :=
  let searchLimit := min data.length maxChunkSizeLine
  match findCRLF (data.take searchLimit) with
  | none =>
    if data.length ≥ maxChunkSizeLine then .error .chunkSizeLineTooLong
    else .ok (p, 0)
  | some idx =>
    let sizeLine := data.take idx
    let parts := splitNChar ';' 2 sizeLine
    let sizeHex : List Char := trimSpace (parts.headD [])
    let extBad : Bool :=
      match parts with
      | _ :: ext :: _ => ext.any (fun c => c = '\r' ∨ c = '\n' ∨ c = '\x00')
      | _ => false
    if extBad then .error .invalidChunkExtension
    else
      match goParseInt16 ⟨sizeHex⟩ with
      | none => .error .invalidChunkSize
      | some size =>
        if size < 0 then .error .invalidChunkSize
        else if size > (maxChunkSize : Int) then .error .chunkTooLarge
        else .ok ({ p with chunkSize := size }, idx + 2)

/-- Source `parseChunkedIncremental`: one call of the chunked-body loop, carrying
state across calls.  Returns (consumed, done, sub-parser, body).  `fuel`
bounds iterations; every iteration that recurses consumes at least one
byte, so `data.length + 1` suffices. -/
def parseChunkedLoop (maxBodySize : Int) (bodyIn : List Char) (p : ChunkParser)
    (data : List Char) (consumed : Nat) :
    Nat → Except ReqError (Nat × Bool × ChunkParser × List Char)
  | 0 => .error .outOfFuel
  | fuel + 1 =>
    if consumed < data.length then
      match p.state with
      | .size =>
        match parseChunkSize p (data.drop consumed) with
        | .error e => .error e
        | .ok (p, n) =>
          if n = 0 then
            .ok (consumed, false, p, bodyIn)
          else
            let consumed := consumed + n
            if p.chunkSize = 0 then
              parseChunkedLoop maxBodySize bodyIn { p with state := .trailer }
                data consumed fuel
            else
              parseChunkedLoop maxBodySize bodyIn
                { p with state := .data, chunkRead := 0 } data consumed fuel
      | .data =>
        let remaining := p.chunkSize - p.chunkRead
        let available : Int := (data.length - consumed : Nat)
        let toRead : Nat := (min remaining available).toNat
        if p.totalBodySize + (toRead : Int) > maxBodySize then
          .error .bodyTooLarge
        else
          let body := bodyIn ++ ((data.drop consumed).take toRead)
          let consumed := consumed + toRead
          let p := { p with chunkRead := p.chunkRead + toRead,
                            totalBodySize := p.totalBodySize + toRead }
          if p.chunkRead = p.chunkSize then
            parseChunkedLoop maxBodySize body { p with state := .dataCRLF }
              data consumed fuel
          else
            .ok (consumed, false, p, body)
      | .dataCRLF =>
        if (data.drop consumed).length < 2 then
          .ok (consumed, false, p, bodyIn)
        else if (data.drop consumed).take 2 = ['\r', '\n'] then
          parseChunkedLoop maxBodySize bodyIn { p with state := .size }
            data (consumed + 2) fuel
        else
          .error .invalidChunkFormat
      | .trailer =>
        if (data.drop consumed).length < 2 then
          .ok (consumed, false, p, bodyIn)
        else if (data.drop consumed).take 2 = ['\r', '\n'] then
          .ok (consumed + 2, true, { p with state := .done }, bodyIn)
        else
          match findCRLFCRLF (data.drop consumed) with
          | none =>
            if (data.drop consumed).length > maxChunkSizeLine then
              .error .trailerTooLarge
            else
              .ok (consumed, false, p, bodyIn)
          | some idx =>
            let trailers := (data.drop consumed).take idx
            if trailers.any (fun c => c = '\x00') then
              .error .nulInTrailer
            else
              .ok (consumed + idx + 4, true, { p with state := .done }, bodyIn)
      | .done => .ok (consumed, true, p, bodyIn)
    else
      .ok (consumed, false, p, bodyIn)

/-- Source `parseChunkedIncremental(data, &body, parser, maxBodySize)`. -/
def parseChunkedIncremental (data : List Char) (body : List Char)
    (p : ChunkParser) (maxBodySize : Int) :
    Except ReqError (Nat × Bool × ChunkParser × List Char) :=
  parseChunkedLoop maxBodySize body p data 0 (data.length + 1)

/-! ### Incremental request parser (`part_008` of the request package) -/

def maxRequestLineSize : Nat := 8192
def maxHeaderSize : Nat := 1 <<< 20
def maxHeaderLines : Nat := 1000
def maxURILength : Nat := 8192

/-- The request parser's state names. -/
inductive PState
  | requestLine | headers | body | done
  deriving DecidableEq, Repr

/-- Source `parser`: state machine driving one request. -/
structure Parser where
  state : PState := .requestLine
  buffer : List Char := []
  chunk : ChunkParser := {}
  totalBytesRead : Int := 0
  headerLines : Nat := 0
  maxBodySize : Int
  deriving DecidableEq, Repr

/-- Source `newParser(maxBodySize)`.  The source's `if maxBodySize <= 0` branch
assigns `maxBodySize = maxBodySize` (a no-op, flagged as a bug by its own
comment), so the value is stored as given. -/
def newParser (maxBodySize : Int) : Parser :=
  { maxBodySize := maxBodySize }

/-- Source `parser.parseRequestLine(data, req)`. -/
def parseRequestLineStep (p : Parser) (req : Request) (data : List Char) :
    Except ReqError (Nat × Parser × Request) :=
  if data.length > maxRequestLineSize then .error .requestLineTooLarge
  else
    match parseRequestLine data with
    | .error e => .error e
    | .ok r =>
      if r.consumed = 0 then
        .ok (0, p, req)
      else if r.path.data.length > maxURILength then
        .error .uriTooLong
      else
        .ok (r.consumed, { p with state := .headers },
          { req with Method := r.method, Path := r.path, Version := r.version })

/-- Source `parser.parseHeaders(data, req, maxHeaderBytes)`.  Note that the
source increments `p.headerLines` once per *call*, not per header line,
and that its `maxHeaderBytes` argument is never used in the body. -/
def parseHeadersStep (p : Parser) (req : Request) (data : List Char) :
    Except ReqError (Nat × Parser × Request) :=
  let out := req.Headers.Parse data
  let req := { req with Headers := out.hs }
  match out.err with
  | some e => .error (.headerErr e)
  | none =>
    let p := { p with headerLines := p.headerLines + 1 }
    if p.headerLines > maxHeaderLines then .error .tooManyHeaders
    else if ¬ out.done then
      .ok (out.read, p, req)
    else if req.IsChunked then
      .ok (out.read, { p with state := .body }, req)
    else
      let cl := req.ContentLength
      if cl > 0 then
        if cl > p.maxBodySize then .error .bodyTooLarge
        else .ok (out.read, { p with state := .body }, req)
      else
        .ok (out.read, { p with state := .done }, req)

/-- Source `parser.parseFixedBody(data, req)`. -/
def parseFixedBodyStep (p : Parser) (req : Request) (data : List Char) :
    Except ReqError (Nat × Parser × Request) :=
  let cl := req.ContentLength
  if cl < 0 then .error .missingContentLength
  else if cl > p.maxBodySize then .error .bodyTooLarge
  else
    let remaining : Int := cl - req.Body.length
    if remaining ≤ 0 then
      .ok (0, { p with state := .done }, req)
    else
      let toRead : Nat := min remaining.toNat data.length
      if ((req.Body.length + toRead : Nat) : Int) > p.maxBodySize then
        .error .bodyTooLarge
      else
        let req := { req with Body := req.Body ++ data.take toRead }
        if (req.Body.length : Int) = cl then
          .ok (toRead, { p with state := .done }, req)
        else
          .ok (toRead, p, req)

/-- Source `parser.parseChunkedBody(data, req)`. -/
def parseChunkedBodyStep (p : Parser) (req : Request) (data : List Char) :
    Except ReqError (Nat × Parser × Request) :=
  match parseChunkedIncremental data req.Body p.chunk p.maxBodySize with
  | .error e => .error e
  | .ok (consumed, done, cp, body) =>
    let req := { req with Body := body }
    let p := { p with chunk := cp }
    if done then
      .ok (consumed, { p with state := .done }, req)
    else
      .ok (consumed, p, req)

/-- Source `parser.parse(data, req, maxHeaderBytes)`: dispatch on the state. -/
def parseStep (p : Parser) (req : Request) (data : List Char) :
    Except ReqError (Nat × Parser × Request) :=
  match p.state with
  | .requestLine => parseRequestLineStep p req data
  | .headers => parseHeadersStep p req data
  | .body =>
    if req.IsChunked then parseChunkedBodyStep p req data
    else parseFixedBodyStep p req data
  | .done => .ok (0, p, req)

/-- Total bytes in a list of reader segments. -/
def sumLen (reads : List (List Char)) : Nat :=
  (reads.map List.length).sum

/-- The head of one loop iteration: Go's `if len(p.buffer) > 0 { parse }`
(an empty buffer skips straight to reading). -/
def stepOf (p : Parser) (req : Request) :
    Except ReqError (Nat × Parser × Request) :=
  match p.buffer with
  | [] => .ok (0, p, req)
  | b :: bs => parseStep p req (b :: bs)

/-- The tail of one loop iteration, taken when the parse made no
progress: the pre-read size check, the `Read` call with EOF handling,
and the post-read size check.  `.inl` is a final result; `.inr` is the
state to continue with. -/
def readDecision (limit : Nat) (p : Parser) (req : Request)
    (reads : List (List Char)) :
    Except ReqError Request ⊕ (Parser × List (List Char)) :=
  if p.state ≠ .body ∧ p.buffer.length ≥ limit then
    .inl (.error .headerTooLarge)
  else
    match reads with
    | [] =>
      .inl (if p.state = .done then .ok req else .error .unexpectedEof)
    | c :: rest =>
      if p.state ≠ .body ∧ p.buffer.length + c.length > limit then
        .inl (.error .headerTooLarge)
      else
        .inr ({ p with buffer := p.buffer ++ c,
                       totalBytesRead := p.totalBytesRead + c.length }, rest)

/-- The loop of `parser.parseFromReader(reader, req, maxHeaderBytes)`.
The reader is a list of segments: each `Read` call yields the next
segment, and the list's end is `io.EOF`.  `limit` is the (already
defaulted) `maxHeaderBytes`.  Every iteration either consumes buffered
bytes or consumes one segment, so fuel `buffer + total bytes + segment
count + 1` always suffices; the fuel-exhausted branch is unreachable
from the entry point. -/
def runFromReader (limit : Nat) (p : Parser) (req : Request)
    (reads : List (List Char)) : Nat → Except ReqError Request
  | 0 => .error .outOfFuel
  | fuel + 1 =>
    if p.state = .done then
      .ok req
    else
      match stepOf p req with
      | .error e => .error e
      | .ok (consumed, p', req') =>
        if 0 < consumed then
          runFromReader limit { p' with buffer := p'.buffer.drop consumed }
            req' reads fuel
        else
          match readDecision limit p' req' reads with
          | .inl r => r
          | .inr (p2, rest) => runFromReader limit p2 req' rest fuel

/-- Source `parser.parseFromReader`: apply the `maxHeaderBytes <= 0` default and
run the loop with sufficient fuel. -/
def parseFromReader (p : Parser) (req : Request) (reads : List (List Char))
    (maxHeaderBytes : Int) : Except ReqError Request :=
  let limit : Nat := if maxHeaderBytes ≤ 0 then maxHeaderSize
    else maxHeaderBytes.toNat
  runFromReader limit p req reads (p.buffer.length + sumLen reads + reads.length + 1)

/-- Source `RequestFromReaderWithConfig(reader, maxHeaderBytes, maxBodySize)`. -/
def RequestFromReaderWithConfig (reads : List (List Char))
    (maxHeaderBytes maxBodySize : Int) : Except ReqError Request :=
  parseFromReader (newParser maxBodySize) NewRequest reads maxHeaderBytes

/-! ### Response writer (`internal/response/response.go`) -/

/-- Go `statusText[code]`: the reason phrases known to the writer. -/
def statusText (code : Int) : Option String :=
  if code = 100 then some "Continue"
  else if code = 200 then some "OK"
  else if code = 201 then some "Created"
  else if code = 202 then some "Accepted"
  else if code = 204 then some "No Content"
  else if code = 206 then some "Partial Content"
  else if code = 301 then some "Moved Permanently"
  else if code = 302 then some "Found"
  else if code = 303 then some "See Other"
  else if code = 304 then some "Not Modified"
  else if code = 307 then some "Temporary Redirect"
  else if code = 308 then some "Permanent Redirect"
  else if code = 400 then some "Bad Request"
  else if code = 401 then some "Unauthorized"
  else if code = 403 then some "Forbidden"
  else if code = 404 then some "Not Found"
  else if code = 405 then some "Method Not Allowed"
  else if code = 406 then some "Not Acceptable"
  else if code = 408 then some "Request Timeout"
  else if code = 409 then some "Conflict"
  else if code = 412 then some "Precondition Failed"
  else if code = 413 then some "Request Entity Too Large"
  else if code = 414 then some "URI Too Long"
  else if code = 415 then some "Unsupported Media Type"
  else if code = 416 then some "Requested Range Not Satisfiable"
  else if code = 417 then some "Expectation Failed"
  else if code = 429 then some "Too Many Requests"
  else if code = 500 then some "Internal Server Error"
  else if code = 501 then some "Not Implemented"
  else if code = 502 then some "Bad Gateway"
  else if code = 503 then some "Service Unavailable"
  else if code = 504 then some "Gateway Timeout"
  else none

/-- Go `fmt.Sprintf("%d", i)` for an `int`. -/
def intDec (i : Int) : String :=
  if i < 0 then "-" ++ Nat.repr (-i).toNat else Nat.repr i.toNat

/-- The writer's phase names (`writerState`). -/
inductive WriterState
  | start | statusWritten | headersWritten | bodyWritten
  deriving DecidableEq, Repr

/-- Errors returned by writer operations: phase violations (the source's
`fmt.Errorf("status line already written")` etc.) or an I/O error from
the underlying sink. -/
inductive WError
  | statusAlreadyWritten
  | mustWriteStatusFirst
  | mustWriteHeadersFirst
  | mustWriteBodyFirst
  | io
  deriving DecidableEq, Repr

/-- The response `Writer`.  The underlying `io.Writer` is modelled by
`out` (the bytes successfully written so far) together with `sink`, a
schedule of outcomes for the successive `Write` calls: each `Write`
consumes one entry; `false` makes that call fail (as the tests'
`failWriter` does); an exhausted schedule means every further call
succeeds. -/
structure Writer where
  state : WriterState := .start
  statusCode : Int := 0
  contentLength : Int := -1
  isChunked : Bool := false
  hadError : Bool := false
  headers : Headers := {}
  out : List Char := []
  sink : List Bool := []
  deriving DecidableEq, Repr

/-- Source `NewWriter(w)`: fresh writer over a sink. -/
def NewWriter (sink : List Bool := []) : Writer :=
  { sink := sink }

/-- One call of `w.w.Write(s)`: returns the writer with bytes appended on
success, and whether the call succeeded. -/
def wWrite (w : Writer) (s : List Char) : Writer × Bool :=
  match w.sink with
  | [] => ({ w with out := w.out ++ s }, true)
  | ok :: rest =>
    if ok then ({ w with out := w.out ++ s, sink := rest }, true)
    else ({ w with sink := rest }, false)

namespace Writer

/-- Source `WriteStatusLine(code)`: valid only in `start`. -/
def WriteStatusLine (w : Writer) (code : Int) : Writer × Option WError :=
  if w.state ≠ .start then
    (w, some .statusAlreadyWritten)
  else
    let reason := (statusText code).getD "Unknown"
    let line := "HTTP/1.1 " ++ intDec code ++ " " ++ reason ++ "\r\n"
    let (w, ok) := wWrite w line.data
    if ¬ ok then ({ w with hadError := true }, some .io)
    else ({ w with statusCode := code, state := .statusWritten }, none)

/-- Emission of all `name: value` lines for one key, one `Write` per
line, stopping at the first failure. -/
def writeValueLines (w : Writer) (key : String) : List String → Writer × Bool
  | [] => (w, true)
  | v :: vs =>
    let line := key ++ ": " ++ v ++ "\r\n"
    let (w, ok) := wWrite w line.data
    if ok then writeValueLines w key vs else (w, false)

/-- The header-emission loop of `WriteHeaders`: one `Write` per
`name: value` line, stopping at the first failure. -/
def writeHeaderLines (w : Writer) : List (String × List String) →
    Writer × Bool
  | [] => (w, true)
  | (key, values) :: rest =>
    match writeValueLines w key values with
    | (w, true) => writeHeaderLines w rest
    | (w, false) => (w, false)

/-- Source `WriteHeaders(h)`: valid only in `statusWritten`; records framing
(`Content-Length`, `Transfer-Encoding: chunked`), stores the header set,
emits every header line and the terminating CRLF. -/
def WriteHeaders (w : Writer) (h : Headers) : Writer × Option WError :=
  if w.state ≠ .statusWritten then
    (w, some .mustWriteStatusFirst)
  else
    let w :=
      match h.Get "content-length" with
      | some cl =>
        match goParseInt10 cl with
        | some length => { w with contentLength := length }
        | none => w
      | none => w
    let w :=
      match h.Get "transfer-encoding" with
      | some te => if te = "chunked" then { w with isChunked := true } else w
      | none => w
    let w := { w with headers := h }
    match writeHeaderLines w h.headers with
    | (w, false) => ({ w with hadError := true }, some .io)
    | (w, true) =>
      let (w, ok) := wWrite w ['\r', '\n']
      if ¬ ok then ({ w with hadError := true }, some .io)
      else ({ w with state := .headersWritten }, none)

/-- Source `WriteBody(data)`: valid in `headersWritten` *or* `bodyWritten`. -/
def WriteBody (w : Writer) (data : List Char) : Writer × Option WError :=
  if w.state ≠ .headersWritten ∧ w.state ≠ .bodyWritten then
    (w, some .mustWriteHeadersFirst)
  else if data = [] then
    ({ w with state := .bodyWritten }, none)
  else
    let (w, ok) := wWrite w data
    if ¬ ok then ({ w with hadError := true }, some .io)
    else ({ w with state := .bodyWritten }, none)

/-- Go `fmt.Sprintf("%x", n)` for a `Nat` (lowercase hex). -/
def natHex (n : Nat) : String :=
  ⟨Nat.toDigits 16 n⟩

/-- Source `WriteChunk(data)`: valid in `headersWritten`/`bodyWritten`; empty
chunks are silent no-ops. -/
def WriteChunk (w : Writer) (data : List Char) : Writer × Option WError :=
  if w.state ≠ .headersWritten ∧ w.state ≠ .bodyWritten then
    (w, some .mustWriteHeadersFirst)
  else if data = [] then
    (w, none)
  else
    let (w, ok) := wWrite w (natHex data.length ++ "\r\n").data
    if ¬ ok then ({ w with hadError := true }, some .io)
    else
      let (w, ok) := wWrite w data
      if ¬ ok then ({ w with hadError := true }, some .io)
      else
        let (w, ok) := wWrite w ['\r', '\n']
        if ¬ ok then ({ w with hadError := true }, some .io)
        else ({ w with state := .bodyWritten }, none)

/-- Source `FinishChunked()`: emit the final `0\r\n\r\n`. -/
def FinishChunked (w : Writer) : Writer × Option WError :=
  if w.state ≠ .headersWritten ∧ w.state ≠ .bodyWritten then
    (w, some .mustWriteHeadersFirst)
  else
    let (w, ok) := wWrite w "0\r\n\r\n".data
    if ¬ ok then ({ w with hadError := true }, some .io)
    else ({ w with state := .bodyWritten }, none)

/-- Source `WriteTrailers(h)`: valid only in `bodyWritten`. -/
def WriteTrailers (w : Writer) (h : Headers) : Writer × Option WError :=
  if w.state ≠ .bodyWritten then
    (w, some .mustWriteBodyFirst)
  else
    match writeHeaderLines w h.headers with
    | (w, false) => ({ w with hadError := true }, some .io)
    | (w, true) =>
      let (w, ok) := wWrite w ['\r', '\n']
      if ¬ ok then ({ w with hadError := true }, some .io)
      else (w, none)

/-- Source `HadError()`. -/
def HadError (w : Writer) : Bool := w.hadError

/-- Source `HasContentLength()`. -/
def HasContentLength (w : Writer) : Bool := w.contentLength ≥ 0

/-- Source `IsChunked()` (writer). -/
def IsChunked (w : Writer) : Bool := w.isChunked

end Writer

/-! ### Connection loop pieces (`internal/server/conn.go`, shutdown-aware variant) -/

/-- Source `shouldKeepAlive(req, w, shuttingDown)`: the keep-alive policy. -/
def shouldKeepAlive (req : Request) (w : Writer) (shuttingDown : Bool) : Bool :=
  if shuttingDown then false
  else if w.HadError then false
  else
    let closeHdr : Bool :=
      match w.headers.Get "connection" with
      | some c => c = "close"
      | none => false
    if closeHdr then false
    else if req.IsHTTP10 then
      match req.Headers.Get "connection" with
      | some c => c = "keep-alive"
      | none => false
    else
      match req.Headers.Get "connection" with
      | some c => ¬ c = "close"
      | none => true

/-- What `handleConnection` does with a parse error. -/
inductive ConnOutcome
  | closeSilent
  | respond413Close
  | respond400Close
  deriving DecidableEq, Repr

/-- The parse-error handling of `handleConnection`: the `err == io.EOF`
and timeout checks close silently; the three request-package size
sentinels (`ErrHeaderTooLarge`, `ErrBodyTooLarge`,
`ErrRequestLineTooLarge`) get a 413; every other error gets a 400.
The timeout branch is a type assertion on the unwrapped error value, so
it matches only a bare `*net.TimeoutError`. -/
def handleParseError (e : ReqError) : ConnOutcome :=
  if e = .eofSentinel then .closeSilent
  else if e = .timeoutSentinel then .closeSilent
  else if e = .headerTooLarge ∨ e = .bodyTooLarge ∨ e = .requestLineTooLarge then
    .respond413Close
  else .respond400Close

/-! ### Concrete fixtures used by witnesses and counterexamples -/

/-- Extract the request of a successful parse (default for errors). -/
def reqOf (e : Except ReqError Request) : Request :=
  match e with
  | .ok r => r
  | .error _ => NewRequest

/-- A request parsed from a plain keep-alive `GET`. -/
def getReq : Request :=
  reqOf (RequestFromReaderWithConfig
    ["GET / HTTP/1.1\r\nHost: a\r\n\r\n".data] (1 <<< 20) (10 <<< 20))

/-- A writer that has completed a full status/headers/body sequence. -/
def doneWriter : Writer :=
  let (w, _) := (NewWriter []).WriteStatusLine 200
  let (w, _) := w.WriteHeaders (NewHeaders.Set "Content-Length" "5")
  let (w, _) := w.WriteBody "Hello".data
  w

/-- A writer that has written only the status line. -/
def statusWriter : Writer :=
  ((NewWriter []).WriteStatusLine 200).1

/-! ### C1: keep-alive soundness -/

/-- C1 counterexample: for the freshly created writer (no Content-Length
recorded, not chunked, no error) and a plain HTTP/1.1 request,
`shouldKeepAlive` still answers reuse, so "reuse implies the response was
framed" is false: the policy never inspects the writer's framing state. -/
theorem c1_counterexample :
    shouldKeepAlive getReq (NewWriter []) false = true ∧
    (NewWriter []).HasContentLength = false ∧
    (NewWriter []).IsChunked = false := by decide

/-- C1 (amended): whenever `shouldKeepAlive` answers reuse, the writer's
had-error flag is false.  (The framing half of the original claim is
refuted by `c1_counterexample`: the policy performs no framing check.) -/
theorem c1_keepalive_no_error (req : Request) (w : Writer) (sd : Bool)
    (h : shouldKeepAlive req w sd = true) : w.HadError = false := by
  unfold shouldKeepAlive at h
  by_cases hsd : sd
  · simp [hsd] at h
  · simp only [hsd, if_false] at h
    by_cases he : w.HadError
    · simp [he] at h
    · simpa using he

/-- C1 witness: the amended implication applied at the concrete request
and fresh writer. -/
theorem c1_witness :
    shouldKeepAlive getReq (NewWriter []) false = true ∧
    (NewWriter []).HadError = false :=
  ⟨by decide, c1_keepalive_no_error getReq (NewWriter []) false (by decide)⟩

/-! ### C3: incremental-parsing invariance -/

/-- The C3 failing input: an 18-byte GET request. -/
def c3stream : List Char := "GET / HTTP/1.1\r\n\r\n".data

/-- C3: with `maxHeaderBytes = 17`, delivering the same 18-byte request
in one read fails with `ErrHeaderTooLarge` (the pre-append check compares
the whole unread segment against the limit), while delivering it byte by
byte parses it successfully — the parser's result depends on how the
stream is split, refuting split-invariance on the code.  The intended
behaviour (the code's own comments describe the limit as a header-size
limit and the design as incremental) is the claim's. -/
theorem c3_split_dependence :
    RequestFromReaderWithConfig [c3stream] 17 (10 <<< 20) =
      .error .headerTooLarge ∧
    RequestFromReaderWithConfig (c3stream.map (fun c => [c])) 17 (10 <<< 20) =
      .ok { Method := "GET", Path := "/", Version := "HTTP/1.1" } := by decide

/-! ### C4: writer phase discipline -/

/-- C4 counterexample: `WriteHeaders` on a fresh writer (state `start`)
returns an error and emits nothing, but leaves `hadError` false — the
claim's "sets the writer's hadError flag" is wrong (only I/O failures set
it); and a second `WriteBody` after `bodyWritten` is accepted, so not
every out-of-order call errs. -/
theorem c4_counterexample :
    ((NewWriter []).WriteHeaders NewHeaders).2 = some .mustWriteStatusFirst ∧
    ((NewWriter []).WriteHeaders NewHeaders).1.out = [] ∧
    ((NewWriter []).WriteHeaders NewHeaders).1.hadError = false ∧
    doneWriter.state = .bodyWritten ∧
    (doneWriter.WriteBody "again".data).2 = none := by decide

/-- C4 (amended): an out-of-order `WriteStatusLine`, `WriteHeaders` or
`WriteBody` returns an error and leaves the writer completely unchanged
(no bytes are emitted and `hadError` keeps its value, it is *not* set);
`WriteBody` is out of order only in states `start` and `statusWritten`
(a repeated `WriteBody` in `bodyWritten` is accepted by the source). -/
theorem c4_phase_discipline (w : Writer) (code : Int) (h : Headers)
    (data : List Char) :
    (w.state ≠ .start → w.WriteStatusLine code = (w, some .statusAlreadyWritten)) ∧
    (w.state ≠ .statusWritten → w.WriteHeaders h = (w, some .mustWriteStatusFirst)) ∧
    (w.state = .start ∨ w.state = .statusWritten →
      w.WriteBody data = (w, some .mustWriteHeadersFirst)) := by
  refine ⟨fun hs => ?_, fun hs => ?_, fun hs => ?_⟩
  · simp [Writer.WriteStatusLine, hs]
  · simp [Writer.WriteHeaders, hs]
  · have h1 : w.state ≠ .headersWritten := by
      rcases hs with hs | hs <;> simp [hs]
    have h2 : w.state ≠ .bodyWritten := by
      rcases hs with hs | hs <;> simp [hs]
    simp [Writer.WriteBody, h1, h2]

/-- C4 witness: the amended statement applied at concrete writers in each
wrong phase. -/
theorem c4_witness :
    statusWriter.WriteStatusLine 200 = (statusWriter, some .statusAlreadyWritten) ∧
    (NewWriter []).WriteHeaders NewHeaders =
      (NewWriter [], some .mustWriteStatusFirst) ∧
    (NewWriter []).WriteBody "x".data =
      (NewWriter [], some .mustWriteHeadersFirst) :=
  ⟨(c4_phase_discipline statusWriter 200 NewHeaders "x".data).1 (by decide),
   (c4_phase_discipline (NewWriter []) 200 NewHeaders "x".data).2.1 (by decide),
   (c4_phase_discipline (NewWriter []) 200 NewHeaders "x".data).2.2
     (Or.inl (by decide))⟩

/-! ### C6: size-limit errors and the 413 response -/

/-- C6 counterexample: a declared chunk size of `0xA00001` bytes (one
over the 10 MiB per-chunk limit) makes the parser fail with
`ErrChunkTooLarge`, but `handleConnection` compares the error only
against the three request-package sentinels, so this size-limit error is
answered with 400, not 413. -/
theorem c6_counterexample :
    RequestFromReaderWithConfig
      ["POST / HTTP/1.1\r\nTransfer-Encoding: chunked\r\n\r\nA00001\r\n".data]
      (1 <<< 20) (100 <<< 20) = .error .chunkTooLarge ∧
    handleParseError .chunkTooLarge = .respond400Close := by decide

/-- C6 (amended): the connection loop answers 413 exactly for the three
size sentinels it tests — header bytes, body size, and request-line
length; chunk-size and URI-length limit errors (and the headers
package's own aggregate-size error, a different Go value from the
request package's) fall through to the generic 400 branch. -/
theorem c6_size_error_responses :
    handleParseError .headerTooLarge = .respond413Close ∧
    handleParseError .bodyTooLarge = .respond413Close ∧
    handleParseError .requestLineTooLarge = .respond413Close ∧
    handleParseError .chunkTooLarge = .respond400Close ∧
    handleParseError .uriTooLong = .respond400Close ∧
    handleParseError (.headerErr .headerTooLarge) = .respond400Close := by decide

/-! ### C7: EOF at the start of a request -/

/-- C7: when the peer closes the transport before sending anything (an
empty stream, parser at the very start of `RequestLine` with an empty
buffer), the parser does *not* end normally: it returns its fresh
`"unexpected EOF"` error, which is a different value from `io.EOF`, so
`handleConnection`'s `err == io.EOF` test misses it and the loop
synthesizes a 400 response instead of closing silently — contradicting
the claim and the code's own "Client closed connection - this is normal"
comment.  (EOF genuinely mid-parse also yields the same error, as the
claim's second half says.) -/
theorem c7_eof_at_start_gets_400 :
    RequestFromReaderWithConfig [] (1 <<< 20) (10 <<< 20) =
      .error .unexpectedEof ∧
    RequestFromReaderWithConfig ["GET / HT".data] (1 <<< 20) (10 <<< 20) =
      .error .unexpectedEof ∧
    (.unexpectedEof : ReqError) ≠ .eofSentinel ∧
    handleParseError .unexpectedEof = .respond400Close := by decide

/-! ### C9: request-line splitting -/

/-- C9 counterexample: a request line with a fourth SP-separated token,
`GET / HTTP/1.1 X`, does *not* fail with the malformed-request-line
error: `bytes.SplitN(line, " ", 3)` folds everything after the second SP
into the version token, which then fails version validation. -/
theorem c9_counterexample :
    parseRequestLine "GET / HTTP/1.1 X\r\n".data = .error .unsupportedVersion ∧
    ReqError.unsupportedVersion ≠ ReqError.malformedRequestLine := by decide

/-- C9 (amended): the request line is split with `SplitN(line, " ", 3)`.
A line with fewer than three parts (at most one SP) fails with
malformed-request-line; a line with extra SPs has the surplus folded into
the version part, so — when method and target are otherwise valid — it
fails with the unsupported-version error, not malformed-request-line. -/
theorem c9_request_line_parts (data : List Char) (idx : Nat)
    (hfind : findCRLF data = some idx) :
    ((splitNChar ' ' 3 (data.take idx)).length ≠ 3 →
      parseRequestLine data = .error .malformedRequestLine) ∧
    (∀ m p v, splitNChar ' ' 3 (data.take idx) = [m, p, v] →
      ' ' ∈ v → isValidMethod ⟨m⟩ = true → isValidPath ⟨p⟩ = true →
      parseRequestLine data = .error .unsupportedVersion) := by
  constructor
  · intro hlen
    cases hsplit : splitNChar ' ' 3 (data.take idx) with
    | nil => simp [parseRequestLine, hfind, hsplit]
    | cons a tl =>
      cases tl with
      | nil => simp [parseRequestLine, hfind, hsplit]
      | cons b tl2 =>
        cases tl2 with
        | nil => simp [parseRequestLine, hfind, hsplit]
        | cons c tl3 =>
          cases tl3 with
          | nil => exact absurd (by rw [hsplit]; rfl) hlen
          | cons d tl4 => simp [parseRequestLine, hfind, hsplit]
  · intro m p v hsplit hmem hm hp
    have hv : isValidVersion ⟨v⟩ = false := by
      simp only [isValidVersion]
      have h10 : (⟨v⟩ : String) ≠ "HTTP/1.0" := by
        intro h
        have hd : v = "HTTP/1.0".data := congrArg String.data h
        rw [hd] at hmem
        revert hmem
        decide
      have h11 : (⟨v⟩ : String) ≠ "HTTP/1.1" := by
        intro h
        have hd : v = "HTTP/1.1".data := congrArg String.data h
        rw [hd] at hmem
        revert hmem
        decide
      simp [h10, h11]
    simp [parseRequestLine, hfind, hsplit, hm, hp, hv]

/-- C9 witness: the amended statement applied to a two-token line and to
a four-token line. -/
theorem c9_witness :
    parseRequestLine "GET /\r\n".data = .error .malformedRequestLine ∧
    parseRequestLine "GET / A B\r\n".data = .error .unsupportedVersion :=
  ⟨(c9_request_line_parts "GET /\r\n".data 5 (by decide)).1 (by decide),
   (c9_request_line_parts "GET / A B\r\n".data 9 (by decide)).2
     "GET".data "/".data "A B".data (by decide) (by decide) (by decide)
     (by decide)⟩

/-! ### C5: Content-Length validation -/

/-- After `m[k] = vs`, looking up `k` yields `vs`. -/
theorem mapGet_mapPut (m : List (String × List String)) (k : String)
    (vs : List String) : mapGet (mapPut m k vs) k = vs := by
  induction m with
  | nil => simp [mapPut, mapGet, List.find?]
  | cons hd tl ih =>
    by_cases hk : hd.1 = k <;>
      by_cases hany : tl.any (fun p => decide (p.1 = k)) = true <;>
      simp_all [mapPut, mapGet, List.any_cons, List.find?_cons]

/-- A store that has recorded `Content-Length: 5` during `Parse`. -/
def c5base : Headers :=
  match NewHeaders.addWithValidation "Content-Length" "5" with
  | .ok h => h
  | .error _ => NewHeaders

/-- C5: `addWithValidation` on a `Content-Length` field: an unparsable
or negative value is rejected; a repeated occurrence with a different
value fails with `ErrConflictingContentLength`; a repeated occurrence
with the same value succeeds and leaves the store untouched (no
duplicate is stored); a first occurrence records the value and stores
exactly one entry. -/
theorem c5_content_length_rules (h : Headers) (v : String) :
    (goParseInt10 v = none →
      h.addWithValidation "Content-Length" v = .error .invalidContentLength) ∧
    (∀ n : Int, goParseInt10 v = some n → n < 0 →
      h.addWithValidation "Content-Length" v = .error .invalidContentLength) ∧
    (∀ n : Int, goParseInt10 v = some n → 0 ≤ n →
      h.tracking.seenContentLength = true →
      ¬ h.tracking.contentLengthValue = n →
      h.addWithValidation "Content-Length" v = .error .conflictingContentLength) ∧
    (∀ n : Int, goParseInt10 v = some n → 0 ≤ n →
      h.tracking.seenContentLength = true →
      h.tracking.contentLengthValue = n →
      h.addWithValidation "Content-Length" v = .ok h) ∧
    (∀ n : Int, goParseInt10 v = some n → 0 ≤ n →
      h.tracking.seenContentLength = false →
      ∃ h', h.addWithValidation "Content-Length" v = .ok h' ∧
        h'.GetAll "Content-Length" = [v] ∧
        h'.tracking.seenContentLength = true ∧
        h'.tracking.contentLengthValue = n) := by
  have hhost : ¬ (lowerStr "Content-Length" = "host") := by decide
  have hcl : lowerStr "Content-Length" = "content-length" := by decide
  refine ⟨?_, ?_, ?_, ?_, ?_⟩
  · intro hp
    simp [Headers.addWithValidation, hhost, hcl, hp]
  · intro n hp hn
    simp [Headers.addWithValidation, hhost, hcl, hp, hn]
  · intro n hp hn0 hseen hne
    have hnn : ¬ n < 0 := not_lt.mpr hn0
    simp [Headers.addWithValidation, hhost, hcl, hp, hnn, hseen,
      fun hx => hne hx]
  · intro n hp hn0 hseen heq
    have hnn : ¬ n < 0 := not_lt.mpr hn0
    simp [Headers.addWithValidation, hhost, hcl, hp, hnn, hseen, heq]
  · intro n hp hn0 hseen
    have hnn : ¬ n < 0 := not_lt.mpr hn0
    have heq : h.addWithValidation "Content-Length" v =
        .ok { headers := mapPut h.headers "content-length" [v],
              tracking := { h.tracking with
                            seenContentLength := true,
                            contentLengthValue := n } } := by
      simp [Headers.addWithValidation, hhost, hcl, hp, hnn, hseen]
    refine ⟨_, heq, ?_, rfl, rfl⟩
    simp only [Headers.GetAll, hcl]
    exact mapGet_mapPut h.headers "content-length" [v]

/-- C5 witness: every branch of the rule exercised at a concrete store
and value. -/
theorem c5_witness :
    NewHeaders.addWithValidation "Content-Length" "abc" =
      .error .invalidContentLength ∧
    NewHeaders.addWithValidation "Content-Length" "-5" =
      .error .invalidContentLength ∧
    c5base.addWithValidation "Content-Length" "6" =
      .error .conflictingContentLength ∧
    c5base.addWithValidation "Content-Length" "5" = .ok c5base ∧
    (∃ h', NewHeaders.addWithValidation "Content-Length" "7" = .ok h' ∧
      h'.GetAll "Content-Length" = ["7"] ∧
      h'.tracking.seenContentLength = true ∧
      h'.tracking.contentLengthValue = 7) :=
  ⟨(c5_content_length_rules NewHeaders "abc").1 (by decide),
   (c5_content_length_rules NewHeaders "-5").2.1 (-5) (by decide) (by decide),
   (c5_content_length_rules c5base "6").2.2.1 6 (by decide) (by decide)
     (by decide) (by decide),
   (c5_content_length_rules c5base "5").2.2.2.1 5 (by decide) (by decide)
     (by decide) (by decide),
   (c5_content_length_rules NewHeaders "7").2.2.2.2 7 (by decide) (by decide)
     (by decide)⟩

/-! ### C2: framing exclusivity -/

/-- Whenever the header-parse loop reports the terminator (`done`), its
error field is exactly the final validation of the resulting store. -/
theorem parseHeadersLoop_done_err (fuel : Nat) :
    ∀ (h : Headers) (data : List Char) (read : Nat),
      (parseHeadersLoop h data read fuel).done = true →
      (parseHeadersLoop h data read fuel).err =
        (parseHeadersLoop h data read fuel).hs.validateFinal := by
  induction fuel with
  | zero =>
    intro h data read hd
    simp [parseHeadersLoop] at hd
  | succ fuel ih =>
    intro h data read hd
    rw [parseHeadersLoop] at hd ⊢
    by_cases hc1 : h.tracking.headerCount ≥ MaxHeaderLines
    · rw [if_pos hc1] at hd; simp at hd
    rw [if_neg hc1] at hd ⊢
    by_cases hc2 : h.tracking.totalSize ≥ MaxHeaderSize
    · rw [if_pos hc2] at hd; simp at hd
    rw [if_neg hc2] at hd ⊢
    generalize hf : findCRLF (data.drop read) = ofind at hd ⊢
    cases ofind with
    | none => simp at hd
    | some idx =>
      dsimp only at hd ⊢
      by_cases hidx : idx = 0
      · rw [if_pos hidx] at hd ⊢
      rw [if_neg hidx] at hd ⊢
      by_cases hfold : ((data.drop read).take idx).head? = some ' ' ∨
          ((data.drop read).take idx).head? = some '\t'
      · rw [if_pos hfold] at hd; simp at hd
      rw [if_neg hfold] at hd ⊢
      generalize parseHeader ((data.drop read).take idx) = pres at hd ⊢
      cases pres with
      | error e => simp at hd
      | ok nv =>
        obtain ⟨name, value⟩ := nv
        dsimp only at hd ⊢
        generalize Headers.addWithValidation
            { h with tracking :=
              { h.tracking with totalSize :=
                h.tracking.totalSize + ((data.drop read).take idx).length } }
            name value = ares at hd ⊢
        cases ares with
        | error e => simp at hd
        | ok h2 =>
          dsimp only at hd ⊢
          exact ih _ data (read + idx + 2) hd

/-- No framing conflict: the store does not track both a chunked
transfer-encoding and a Content-Length. -/
def NoBoth (hs : Headers) : Prop :=
  ¬ (hs.tracking.isChunked = true ∧ hs.tracking.seenContentLength = true)

/-- Source `validateFinal` passes exactly on conflict-free stores. -/
theorem validateFinal_eq_none (hs : Headers) :
    hs.validateFinal = none ↔ NoBoth hs := by
  unfold Headers.validateFinal NoBoth
  split <;> simp_all

/-- Source `Headers.Parse` specialization of `parseHeadersLoop_done_err`. -/
theorem Parse_done_err (h : Headers) (data : List Char) :
    (h.Parse data).done = true →
    (h.Parse data).err = (h.Parse data).hs.validateFinal :=
  parseHeadersLoop_done_err (data.length + 1) h data 0

/-- Parser invariant: once past the header phase, the request's store has
no framing conflict. -/
def HeadersValidated (p : Parser) (req : Request) : Prop :=
  p.state = .body ∨ p.state = .done → NoBoth req.Headers

/-- One parser step preserves `HeadersValidated`: the only transition
into the body/done phases from outside runs the header store's final
validation. -/
theorem parseStep_headersValidated (p : Parser) (req : Request)
    (data : List Char) (c : Nat) (p' : Parser) (req' : Request)
    (hInv : HeadersValidated p req)
    (hstep : parseStep p req data = .ok (c, p', req')) :
    HeadersValidated p' req' := by
  cases hp : p.state with
  | requestLine =>
    simp only [parseStep, hp, parseRequestLineStep] at hstep
    split at hstep
    · simp at hstep
    split at hstep
    · simp at hstep
    split at hstep
    · simp only [Except.ok.injEq, Prod.mk.injEq] at hstep
      obtain ⟨-, hp', hreq'⟩ := hstep
      subst hp' hreq'
      exact hInv
    split at hstep
    · simp at hstep
    · simp only [Except.ok.injEq, Prod.mk.injEq] at hstep
      obtain ⟨-, hp', hreq'⟩ := hstep
      subst hp' hreq'
      intro hor
      simp at hor
  | headers =>
    simp only [parseStep, hp, parseHeadersStep] at hstep
    split at hstep
    · simp at hstep
    case _ herr =>
    split at hstep
    · simp at hstep
    split at hstep
    case _ hnotdone =>
      simp only [Except.ok.injEq, Prod.mk.injEq] at hstep
      obtain ⟨-, hp', hreq'⟩ := hstep
      subst hp' hreq'
      intro hor
      simp at hor
    case _ hdone =>
    have hnb : NoBoth (req.Headers.Parse data).hs := by
      have hd : (req.Headers.Parse data).done = true := by
        simpa using hdone
      have := Parse_done_err req.Headers data hd
      rw [← validateFinal_eq_none, ← this]
      simpa using herr
    split at hstep
    · simp only [Except.ok.injEq, Prod.mk.injEq] at hstep
      obtain ⟨-, hp', hreq'⟩ := hstep
      subst hp' hreq'
      intro hor
      exact hnb
    split at hstep
    · split at hstep
      · simp at hstep
      · simp only [Except.ok.injEq, Prod.mk.injEq] at hstep
        obtain ⟨-, hp', hreq'⟩ := hstep
        subst hp' hreq'
        intro hor
        exact hnb
    · simp only [Except.ok.injEq, Prod.mk.injEq] at hstep
      obtain ⟨-, hp', hreq'⟩ := hstep
      subst hp' hreq'
      intro hor
      exact hnb
  | body =>
    have hnb : NoBoth req.Headers := hInv (Or.inl hp)
    simp only [parseStep, hp] at hstep
    split at hstep
    · -- chunked body: the store is untouched
      simp only [parseChunkedBodyStep] at hstep
      split at hstep
      · simp at hstep
      split at hstep <;>
      · simp only [Except.ok.injEq, Prod.mk.injEq] at hstep
        obtain ⟨-, hp', hreq'⟩ := hstep
        subst hp' hreq'
        intro hor
        exact hnb
    · -- fixed body: the store is untouched
      simp only [parseFixedBodyStep] at hstep
      split at hstep
      · simp at hstep
      split at hstep
      · simp at hstep
      split at hstep
      · simp only [Except.ok.injEq, Prod.mk.injEq] at hstep
        obtain ⟨-, hp', hreq'⟩ := hstep
        subst hp' hreq'
        intro hor
        exact hnb
      split at hstep
      · simp at hstep
      split at hstep <;>
      · simp only [Except.ok.injEq, Prod.mk.injEq] at hstep
        obtain ⟨-, hp', hreq'⟩ := hstep
        subst hp' hreq'
        intro hor
        exact hnb
  | done =>
    simp only [parseStep, hp, Except.ok.injEq, Prod.mk.injEq] at hstep
    obtain ⟨-, hp', hreq'⟩ := hstep
    subst hp' hreq'
    exact hInv

/-- A successful run of the reader loop yields a conflict-free store. -/
theorem runFromReader_noBoth (fuel : Nat) :
    ∀ (limit : Nat) (p : Parser) (req : Request) (reads : List (List Char))
      (r : Request), HeadersValidated p req →
      runFromReader limit p req reads fuel = .ok r → NoBoth r.Headers := by
  induction fuel with
  | zero =>
    intro limit p req reads r hInv hrun
    simp [runFromReader] at hrun
  | succ fuel ih =>
    intro limit p req reads r hInv hrun
    rw [runFromReader] at hrun
    by_cases hdone : p.state = .done
    · rw [if_pos hdone] at hrun
      simp only [Except.ok.injEq] at hrun
      subst hrun
      exact hInv (Or.inr hdone)
    rw [if_neg hdone] at hrun
    generalize hstep : stepOf p req = sres at hrun
    cases sres with
    | error e => simp at hrun
    | ok t =>
      obtain ⟨consumed, p', req'⟩ := t
      have hInv' : HeadersValidated p' req' := by
        unfold stepOf at hstep
        cases hb : p.buffer with
        | nil =>
          rw [hb] at hstep
          simp only [Except.ok.injEq, Prod.mk.injEq] at hstep
          obtain ⟨-, h1, h2⟩ := hstep
          subst h1 h2
          exact hInv
        | cons b bs =>
          rw [hb] at hstep
          exact parseStep_headersValidated p req (b :: bs) consumed p' req'
            hInv hstep
      dsimp only at hrun
      split at hrun
      · exact ih limit { p' with buffer := p'.buffer.drop consumed }
          req' reads r hInv' hrun
      · generalize hrd : readDecision limit p' req' reads = rd at hrun
        cases rd with
        | inl res =>
          dsimp only at hrun
          subst hrun
          unfold readDecision at hrd
          split at hrd
          · simp at hrd
          · split at hrd
            · simp only [Sum.inl.injEq] at hrd
              split at hrd
              case _ hdone' =>
                simp only [Except.ok.injEq] at hrd
                subst hrd
                exact hInv' (Or.inr hdone')
              · simp at hrd
            · split at hrd
              · simp at hrd
              · simp at hrd
        | inr pr =>
          obtain ⟨p2, rest⟩ := pr
          dsimp only at hrun
          have hInv2 : HeadersValidated p2 req' := by
            unfold readDecision at hrd
            split at hrd
            · simp at hrd
            · split at hrd
              · simp at hrd
              · split at hrd
                · simp at hrd
                · simp only [Sum.inr.injEq, Prod.mk.injEq] at hrd
                  obtain ⟨h1, -⟩ := hrd
                  subst h1
                  exact hInv'
          exact ih limit p2 req' rest r hInv2 hrun

/-- C2: whenever `Headers.Parse` reports the terminator, its error field
is `ErrBothChunkedAndLength` exactly when the final store tracks both
chunked framing and a Content-Length (otherwise no error): a store with
both is never reported complete without that error.  Hence a `Request`
successfully produced by the request parser never carries both
`Content-Length` and `Transfer-Encoding: chunked`. -/
theorem c2_framing_exclusivity (h : Headers) (data : List Char) :
    ((h.Parse data).done = true →
      (h.Parse data).err =
        (if (h.Parse data).hs.tracking.isChunked ∧
            (h.Parse data).hs.tracking.seenContentLength
         then some .bothChunkedAndLength else none)) ∧
    (∀ (reads : List (List Char)) (mh mb : Int) (r : Request),
      RequestFromReaderWithConfig reads mh mb = .ok r →
      ¬ (r.Headers.tracking.isChunked = true ∧
         r.Headers.tracking.seenContentLength = true)) := by
  constructor
  · intro hd
    rw [Parse_done_err h data hd]
    rfl
  · intro reads mh mb r hok
    have hInv : HeadersValidated (newParser mb) NewRequest := by
      intro hor
      rcases hor with hh | hh <;> simp [newParser] at hh
    exact runFromReader_noBoth _ _ _ _ _ _ hInv hok

/-- C2 witness: the terminator equation at a complete conflict-free
block, and the parser-level exclusivity at a parsed request. -/
theorem c2_witness :
    ((NewHeaders.Parse "Host: a\r\n\r\n".data).err =
      (if (NewHeaders.Parse "Host: a\r\n\r\n".data).hs.tracking.isChunked ∧
          (NewHeaders.Parse "Host: a\r\n\r\n".data).hs.tracking.seenContentLength
       then some .bothChunkedAndLength else none)) ∧
    ¬ (({ Method := "GET", Path := "/", Version := "HTTP/1.1" } :
          Request).Headers.tracking.isChunked = true ∧
       ({ Method := "GET", Path := "/", Version := "HTTP/1.1" } :
          Request).Headers.tracking.seenContentLength = true) :=
  ⟨(c2_framing_exclusivity NewHeaders "Host: a\r\n\r\n".data).1 (by decide),
   (c2_framing_exclusivity NewHeaders "Host: a\r\n\r\n".data).2
     ["GET / HTTP/1.1\r\n\r\n".data] (1 <<< 20) (10 <<< 20)
     { Method := "GET", Path := "/", Version := "HTTP/1.1" } (by decide)⟩

/-! ### C8: header size limits (supporting lemmas) -/

/-- Reaching the terminator consumes at least its two bytes. -/
theorem parseHeadersLoop_done_read (fuel : Nat) :
    ∀ (h : Headers) (data : List Char) (read : Nat),
      (parseHeadersLoop h data read fuel).done = true →
      read + 2 ≤ (parseHeadersLoop h data read fuel).read := by
  induction fuel with
  | zero =>
    intro h data read hd
    simp [parseHeadersLoop] at hd
  | succ fuel ih =>
    intro h data read hd
    rw [parseHeadersLoop] at hd ⊢
    by_cases hc1 : h.tracking.headerCount ≥ MaxHeaderLines
    · rw [if_pos hc1] at hd; simp at hd
    rw [if_neg hc1] at hd ⊢
    by_cases hc2 : h.tracking.totalSize ≥ MaxHeaderSize
    · rw [if_pos hc2] at hd; simp at hd
    rw [if_neg hc2] at hd ⊢
    generalize hf : findCRLF (data.drop read) = ofind at hd ⊢
    cases ofind with
    | none => simp at hd
    | some idx =>
      dsimp only at hd ⊢
      by_cases hidx : idx = 0
      · rw [if_pos hidx] at hd ⊢
      rw [if_neg hidx] at hd ⊢
      by_cases hfold : ((data.drop read).take idx).head? = some ' ' ∨
          ((data.drop read).take idx).head? = some '\t'
      · rw [if_pos hfold] at hd; simp at hd
      rw [if_neg hfold] at hd ⊢
      generalize parseHeader ((data.drop read).take idx) = pres at hd ⊢
      cases pres with
      | error e => simp at hd
      | ok nv =>
        obtain ⟨name, value⟩ := nv
        dsimp only at hd ⊢
        generalize Headers.addWithValidation
            { h with tracking :=
              { h.tracking with totalSize :=
                h.tracking.totalSize + ((data.drop read).take idx).length } }
            name value = ares at hd ⊢
        cases ares with
        | error e => simp at hd
        | ok h2 =>
          dsimp only at hd ⊢
          have := ih _ data (read + idx + 2) hd
          omega

/-- Source `parseChunkSize` records the declared size but never changes the
sub-parser's state. -/
theorem parseChunkSize_state (cp : ChunkParser) (d : List Char)
    (cp1 : ChunkParser) (n : Nat)
    (h : parseChunkSize cp d = .ok (cp1, n)) : cp1.state = cp.state := by
  unfold parseChunkSize at h
  dsimp only at h
  generalize findCRLF (d.take (min d.length maxChunkSizeLine)) = f at h
  cases f with
  | none =>
    by_cases hlen : d.length ≥ maxChunkSizeLine
    · rw [if_pos hlen] at h; simp at h
    · rw [if_neg hlen] at h
      simp only [Except.ok.injEq, Prod.mk.injEq] at h
      obtain ⟨h1, -⟩ := h
      subst h1
      rfl
  | some idx =>
    dsimp only at h
    split at h
    · simp at h
    · split at h
      · simp at h
      · split at h
        · simp at h
        split at h
        · simp at h
        simp only [Except.ok.injEq, Prod.mk.injEq] at h
        obtain ⟨h1, -⟩ := h
        subst h1
        rfl

/-- The chunked-body loop never leaves the sub-parser in `done` without
reporting completion, and completion always consumes at least two bytes
beyond the starting point. -/
theorem parseChunkedLoop_facts (fuel : Nat) :
    ∀ (mb : Int) (bodyIn : List Char) (cp : ChunkParser) (data : List Char)
      (consumed : Nat) (c : Nat) (dn : Bool) (cp' : ChunkParser)
      (body' : List Char),
      cp.state ≠ .done →
      parseChunkedLoop mb bodyIn cp data consumed fuel =
        .ok (c, dn, cp', body') →
      (dn = false → cp'.state ≠ .done) ∧ (dn = true → consumed + 2 ≤ c) := by
  induction fuel with
  | zero =>
    intro mb bodyIn cp data consumed c dn cp' body' hne hrun
    simp [parseChunkedLoop] at hrun
  | succ fuel ih =>
    intro mb bodyIn cp data consumed c dn cp' body' hne hrun
    rw [parseChunkedLoop] at hrun
    by_cases hlt : consumed < data.length
    swap
    · rw [if_neg hlt] at hrun
      simp only [Except.ok.injEq, Prod.mk.injEq] at hrun
      obtain ⟨-, h1, h2, -⟩ := hrun
      subst h1 h2
      exact ⟨fun _ => hne, fun hc => by simp at hc⟩
    rw [if_pos hlt] at hrun
    generalize hcs : cp.state = cst at hne hrun
    cases cst with
    | size =>
      dsimp only at hrun
      generalize hsz : parseChunkSize cp (data.drop consumed) = sres at hrun
      cases sres with
      | error e => simp at hrun
      | ok t =>
        obtain ⟨cp1, n⟩ := t
        dsimp only at hrun
        by_cases hn : n = 0
        · rw [if_pos hn] at hrun
          simp only [Except.ok.injEq, Prod.mk.injEq] at hrun
          obtain ⟨-, h1, h2, -⟩ := hrun
          subst h1 h2
          refine ⟨fun _ => ?_, fun hc => by simp at hc⟩
          rw [parseChunkSize_state cp (data.drop consumed) cp1 n hsz, hcs]
          simp
        · rw [if_neg hn] at hrun
          split at hrun
          · have := ih _ _ _ _ _ _ _ _ _ (by simp) hrun
            exact ⟨this.1, fun hdn => by have := this.2 hdn; omega⟩
          · have := ih _ _ _ _ _ _ _ _ _ (by simp) hrun
            exact ⟨this.1, fun hdn => by have := this.2 hdn; omega⟩
    | data =>
      dsimp only at hrun
      split at hrun
      · simp at hrun
      split at hrun
      · have := ih _ _ _ _ _ _ _ _ _ (by simp) hrun
        exact ⟨this.1, fun hdn => by have := this.2 hdn; omega⟩
      · simp only [Except.ok.injEq, Prod.mk.injEq] at hrun
        obtain ⟨-, h1, h2, -⟩ := hrun
        subst h1 h2
        exact ⟨fun _ => by simp, fun hc => by simp at hc⟩
    | dataCRLF =>
      dsimp only at hrun
      split at hrun
      · simp only [Except.ok.injEq, Prod.mk.injEq] at hrun
        obtain ⟨-, h1, h2, -⟩ := hrun
        subst h1 h2
        exact ⟨fun _ => by rw [hcs]; simp, fun hc => by simp at hc⟩
      split at hrun
      · have := ih _ _ _ _ _ _ _ _ _ (by simp) hrun
        exact ⟨this.1, fun hdn => by have := this.2 hdn; omega⟩
      · simp at hrun
    | trailer =>
      dsimp only at hrun
      split at hrun
      · simp only [Except.ok.injEq, Prod.mk.injEq] at hrun
        obtain ⟨-, h1, h2, -⟩ := hrun
        subst h1 h2
        exact ⟨fun _ => by rw [hcs]; simp, fun hc => by simp at hc⟩
      split at hrun
      · simp only [Except.ok.injEq, Prod.mk.injEq] at hrun
        obtain ⟨h1, h2, h3, -⟩ := hrun
        subst h1 h2 h3
        exact ⟨fun hdn => by simp at hdn, fun _ => by omega⟩
      split at hrun
      · split at hrun
        · simp at hrun
        · simp only [Except.ok.injEq, Prod.mk.injEq] at hrun
          obtain ⟨-, h1, h2, -⟩ := hrun
          subst h1 h2
          exact ⟨fun _ => by rw [hcs]; simp, fun hc => by simp at hc⟩
      · split at hrun
        · simp at hrun
        · simp only [Except.ok.injEq, Prod.mk.injEq] at hrun
          obtain ⟨h1, h2, h3, -⟩ := hrun
          subst h1 h2 h3
          exact ⟨fun hdn => by simp at hdn, fun _ => by omega⟩
    | done => exact absurd rfl hne

/-- Source `Headers.Parse` specialization of `parseHeadersLoop_done_read`. -/
theorem Parse_done_read (h : Headers) (data : List Char) :
    (h.Parse data).done = true → 2 ≤ (h.Parse data).read :=
  fun hd => parseHeadersLoop_done_read (data.length + 1) h data 0 hd

/-- Run invariant for the parser: before the body phase, the chunk
sub-parser is untouched and the body is empty; in the body phase, either
the request is chunked and the sub-parser has not finished, or it is a
fixed body with bytes still missing.  It rules out the (unreachable)
zero-byte transitions into `done`. -/
def StepInv (p : Parser) (req : Request) : Prop :=
  ((p.state = .requestLine ∨ p.state = .headers) →
      p.chunk.state = .size ∧ req.Body = []) ∧
  (p.state = .body →
      (req.IsChunked = true ∧ p.chunk.state ≠ .done) ∨
      (req.IsChunked = false ∧ (req.Body.length : Int) < req.ContentLength))

/-- Source `parseRequestLineStep` preserves the invariant, never reaches `done`,
makes progress whenever it changes state, and leaves the buffer alone. -/
theorem parseRequestLineStep_facts (p : Parser) (req : Request)
    (data : List Char) (c : Nat) (p' : Parser) (req' : Request)
    (hp : p.state = .requestLine) (hInv : StepInv p req)
    (hstep : parseRequestLineStep p req data = .ok (c, p', req')) :
    StepInv p' req' ∧ (c = 0 → p'.state ≠ .done) ∧ p'.buffer = p.buffer := by
  unfold parseRequestLineStep at hstep
  split at hstep
  · simp at hstep
  generalize parseRequestLine data = pres at hstep
  cases pres with
  | error e => simp at hstep
  | ok r =>
    dsimp only at hstep
    split at hstep
    · simp only [Except.ok.injEq, Prod.mk.injEq] at hstep
      obtain ⟨-, h1, h2⟩ := hstep
      subst h1 h2
      exact ⟨hInv, fun _ => by rw [hp]; simp, rfl⟩
    split at hstep
    · simp at hstep
    case _ hcons _ =>
      simp only [Except.ok.injEq, Prod.mk.injEq] at hstep
      obtain ⟨hc, h1, h2⟩ := hstep
      subst h1 h2
      refine ⟨⟨fun _ => ?_, fun hb => by simp at hb⟩, fun hc0 => ?_, rfl⟩
      · exact ⟨(hInv.1 (Or.inl hp)).1, (hInv.1 (Or.inl hp)).2⟩
      · exact absurd (by omega) hcons

/-- Source `parseHeadersStep` preserves the invariant, reaches `body`/`done`
only after consuming the terminator (at least two bytes), and leaves the
buffer alone. -/
theorem parseHeadersStep_facts (p : Parser) (req : Request)
    (data : List Char) (c : Nat) (p' : Parser) (req' : Request)
    (hp : p.state = .headers) (hInv : StepInv p req)
    (hstep : parseHeadersStep p req data = .ok (c, p', req')) :
    StepInv p' req' ∧ (c = 0 → p'.state ≠ .done) ∧ p'.buffer = p.buffer := by
  have hchunk : p.chunk.state = .size := (hInv.1 (Or.inr hp)).1
  have hbody : req.Body = [] := (hInv.1 (Or.inr hp)).2
  unfold parseHeadersStep at hstep
  dsimp only at hstep
  generalize hout : req.Headers.Parse data = out at hstep
  generalize out.err = oerr at hstep
  cases oerr with
  | some e => simp at hstep
  | none =>
    dsimp only at hstep
    split at hstep
    · simp at hstep
    split at hstep
    case _ hnotdone =>
      -- headers not complete: state stays `headers`
      simp only [Except.ok.injEq, Prod.mk.injEq] at hstep
      obtain ⟨-, h1, h2⟩ := hstep
      subst h1 h2
      refine ⟨⟨fun _ => ⟨hchunk, ?_⟩, fun hb => by simp [hp] at hb⟩,
        fun _ => by simp [hp], rfl⟩
      simpa using hbody
    case _ hdone =>
    have hdone' : out.done = true := by simpa using hdone
    have hread : 2 ≤ out.read := by
      rw [← hout]
      exact Parse_done_read req.Headers data (by rw [hout]; exact hdone')
    generalize hreq2 :
      ({ Method := req.Method, Path := req.Path, Version := req.Version,
         Headers := out.hs, Body := req.Body } : Request) = req2 at hstep
    have hbody2 : req2.Body = [] := by
      rw [← hreq2]
      simpa using hbody
    split at hstep
    case _ hchunked =>
      simp only [Except.ok.injEq, Prod.mk.injEq] at hstep
      obtain ⟨hc, h1, h2⟩ := hstep
      subst h1 h2
      refine ⟨⟨fun hh => ?_, fun _ => Or.inl ⟨hchunked, by simp [hchunk]⟩⟩,
        fun hc0 => by omega, rfl⟩
      rcases hh with hh | hh <;> simp at hh
    case _ hnotchunked =>
    split at hstep
    case _ hclpos =>
      split at hstep
      · simp at hstep
      case _ hclmax =>
        simp only [Except.ok.injEq, Prod.mk.injEq] at hstep
        obtain ⟨hc, h1, h2⟩ := hstep
        subst h1 h2
        refine ⟨⟨fun hh => ?_, fun _ => Or.inr ⟨by simpa using hnotchunked,
          ?_⟩⟩, fun hc0 => by omega, rfl⟩
        · rcases hh with hh | hh <;> simp at hh
        · rw [hbody2]
          simpa using hclpos
    case _ hclneg =>
      simp only [Except.ok.injEq, Prod.mk.injEq] at hstep
      obtain ⟨hc, h1, h2⟩ := hstep
      subst h1 h2
      refine ⟨⟨fun hh => ?_, fun hb => by simp at hb⟩,
        fun hc0 => by omega, rfl⟩
      rcases hh with hh | hh <;> simp at hh

/-- Source `parseChunkedBodyStep` preserves the invariant; completing the body
consumes at least two bytes. -/
theorem parseChunkedBodyStep_facts (p : Parser) (req : Request)
    (data : List Char) (c : Nat) (p' : Parser) (req' : Request)
    (hp : p.state = .body) (hch : req.IsChunked = true)
    (hcd : p.chunk.state ≠ .done)
    (hstep : parseChunkedBodyStep p req data = .ok (c, p', req')) :
    StepInv p' req' ∧ (c = 0 → p'.state ≠ .done) ∧ p'.buffer = p.buffer := by
  unfold parseChunkedBodyStep at hstep
  generalize hrun :
    parseChunkedIncremental data req.Body p.chunk p.maxBodySize = res at hstep
  cases res with
  | error e => simp at hstep
  | ok t =>
    obtain ⟨consumed, dn, cp, body⟩ := t
    unfold parseChunkedIncremental at hrun
    have hfacts := parseChunkedLoop_facts (data.length + 1) p.maxBodySize
      req.Body p.chunk data 0 consumed dn cp body hcd hrun
    dsimp only at hstep
    cases dn with
    | false =>
      rw [if_neg (by simp)] at hstep
      simp only [Except.ok.injEq, Prod.mk.injEq] at hstep
      obtain ⟨hc, h1, h2⟩ := hstep
      subst h1 h2
      refine ⟨⟨fun hh => ?_, fun _ => Or.inl ⟨hch, hfacts.1 rfl⟩⟩,
        fun _ => by simp [hp], rfl⟩
      rcases hh with hh | hh <;> simp [hp] at hh
    | true =>
      rw [if_pos rfl] at hstep
      simp only [Except.ok.injEq, Prod.mk.injEq] at hstep
      obtain ⟨hc, h1, h2⟩ := hstep
      subst h1 h2
      have := hfacts.2 rfl
      refine ⟨⟨fun hh => ?_, fun hb => by simp at hb⟩,
        fun hc0 => by omega, rfl⟩
      rcases hh with hh | hh <;> simp at hh

/-- Source `parseFixedBodyStep` preserves the invariant and, on non-empty input
with bytes still missing, always consumes at least one byte. -/
theorem parseFixedBodyStep_facts (p : Parser) (req : Request) (b : Char)
    (bs : List Char) (c : Nat) (p' : Parser) (req' : Request)
    (hp : p.state = .body) (hch : req.IsChunked = false)
    (hlt : (req.Body.length : Int) < req.ContentLength)
    (hstep : parseFixedBodyStep p req (b :: bs) = .ok (c, p', req')) :
    StepInv p' req' ∧ (c = 0 → p'.state ≠ .done) ∧ p'.buffer = p.buffer := by
  unfold parseFixedBodyStep at hstep
  dsimp only at hstep
  split at hstep
  · simp at hstep
  split at hstep
  · simp at hstep
  split at hstep
  · exfalso; omega
  split at hstep
  · simp at hstep
  split at hstep
  case _ hfull =>
    simp only [Except.ok.injEq, Prod.mk.injEq] at hstep
    obtain ⟨hc, h1, h2⟩ := hstep
    subst h1 h2
    have hmin : min (req.ContentLength - (req.Body.length : Int)).toNat
        (b :: bs).length ≥ 1 := by
      simp only [ge_iff_le, le_min_iff, List.length_cons]
      constructor <;> omega
    have hc1 : 1 ≤ c := hc ▸ hmin
    refine ⟨⟨fun hh => ?_, fun hb => by simp at hb⟩,
      fun hc0 => by omega, rfl⟩
    rcases hh with hh | hh <;> simp at hh
  case _ hnotfull =>
    simp only [Except.ok.injEq, Prod.mk.injEq] at hstep
    obtain ⟨hc, h1, h2⟩ := hstep
    subst h1 h2
    refine ⟨⟨fun hh => ?_, fun _ => Or.inr ⟨hch, ?_⟩⟩,
      fun _ => by simp [hp], rfl⟩
    · rcases hh with hh | hh <;> simp [hp] at hh
    · simp only [Request.ContentLength] at hlt hnotfull ⊢
      simp only [List.length_append, List.length_take, List.length_cons]
        at hnotfull ⊢
      push_cast at hnotfull ⊢
      omega

/-- One parser step from a live state: the invariant is preserved, a
zero-byte step never lands in `done`, and the buffer is untouched. -/
theorem parseStep_facts (p : Parser) (req : Request) (b : Char)
    (bs : List Char) (c : Nat) (p' : Parser) (req' : Request)
    (hInv : StepInv p req) (hnd : p.state ≠ .done)
    (hstep : parseStep p req (b :: bs) = .ok (c, p', req')) :
    StepInv p' req' ∧ (c = 0 → p'.state ≠ .done) ∧ p'.buffer = p.buffer := by
  cases hp : p.state with
  | requestLine =>
    simp only [parseStep, hp] at hstep
    exact parseRequestLineStep_facts p req (b :: bs) c p' req' hp hInv hstep
  | headers =>
    simp only [parseStep, hp] at hstep
    exact parseHeadersStep_facts p req (b :: bs) c p' req' hp hInv hstep
  | body =>
    simp only [parseStep, hp] at hstep
    rcases hInv.2 hp with ⟨hch, hcd⟩ | ⟨hch, hlt⟩
    · rw [if_pos hch] at hstep
      exact parseChunkedBodyStep_facts p req (b :: bs) c p' req' hp hch hcd
        hstep
    · rw [if_neg (by simp [hch])] at hstep
      exact parseFixedBodyStep_facts p req b bs c p' req' hp hch hlt hstep
  | done => exact absurd hp hnd

/-- Exhaustive description of `readDecision`'s results. -/
theorem readDecision_cases (limit : Nat) (p : Parser) (req : Request)
    (reads : List (List Char)) :
    (∃ e, readDecision limit p req reads = .inl (.error e)) ∨
    (reads = [] ∧ p.state = .done ∧
      readDecision limit p req reads = .inl (.ok req)) ∨
    (∃ cs rest, reads = cs :: rest ∧
      ¬ (p.state ≠ .body ∧ p.buffer.length ≥ limit) ∧
      ¬ (p.state ≠ .body ∧ p.buffer.length + cs.length > limit) ∧
      readDecision limit p req reads =
        .inr ({ p with buffer := p.buffer ++ cs,
                       totalBytesRead := p.totalBytesRead + cs.length },
              rest)) := by
  unfold readDecision
  by_cases h1 : p.state ≠ .body ∧ p.buffer.length ≥ limit
  · exact Or.inl ⟨.headerTooLarge, by rw [if_pos h1]⟩
  rw [if_neg h1]
  cases reads with
  | nil =>
    by_cases h2 : p.state = .done
    · exact Or.inr (Or.inl ⟨rfl, h2, by rw [if_pos h2]⟩)
    · exact Or.inl ⟨.unexpectedEof, by rw [if_neg h2]⟩
  | cons cs rest =>
    dsimp only
    by_cases h3 : p.state ≠ .body ∧ p.buffer.length + cs.length > limit
    · exact Or.inl ⟨.headerTooLarge, by rw [if_pos h3]⟩
    · exact Or.inr (Or.inr ⟨cs, rest, rfl, h1, h3, by rw [if_neg h3]⟩)

/-- Source `readDecision` continues with the appended segment when neither size
check fires. -/
theorem readDecision_inr (limit : Nat) (p : Parser) (req : Request)
    (cs : List Char) (rest : List (List Char))
    (h1 : ¬ (p.state ≠ .body ∧ p.buffer.length ≥ limit))
    (h2 : ¬ (p.state ≠ .body ∧ p.buffer.length + cs.length > limit)) :
    readDecision limit p req (cs :: rest) =
      .inr ({ p with buffer := p.buffer ++ cs,
                     totalBytesRead := p.totalBytesRead + cs.length },
            rest) := by
  unfold readDecision
  rw [if_neg h1]
  dsimp only
  rw [if_neg h2]

/-- Raising the header-byte limit to anything that accommodates the whole
remaining input (buffered plus unread bytes, with no read returning zero
bytes) preserves a successful parse, with the same request. -/
theorem runFromReader_limit_mono (fuel : Nat) :
    ∀ (L M : Nat) (p : Parser) (req : Request) (reads : List (List Char))
      (r : Request),
      (∀ cs ∈ reads, cs ≠ []) →
      StepInv p req →
      p.buffer.length + sumLen reads ≤ L →
      runFromReader M p req reads fuel = .ok r →
      runFromReader L p req reads fuel = .ok r := by
  induction fuel with
  | zero =>
    intro L M p req reads r hne hInv hsize hrun
    simp [runFromReader] at hrun
  | succ fuel ih =>
    intro L M p req reads r hne hInv hsize hrun
    rw [runFromReader] at hrun ⊢
    by_cases hdone : p.state = .done
    · rw [if_pos hdone] at hrun ⊢
      exact hrun
    rw [if_neg hdone] at hrun ⊢
    generalize hstep : stepOf p req = sres at hrun ⊢
    cases sres with
    | error e => simp at hrun
    | ok t =>
      obtain ⟨c, p', req'⟩ := t
      have hfacts : StepInv p' req' ∧ (c = 0 → p'.state ≠ .done) ∧
          p'.buffer = p.buffer := by
        unfold stepOf at hstep
        cases hb : p.buffer with
        | nil =>
          rw [hb] at hstep
          simp only [Except.ok.injEq, Prod.mk.injEq] at hstep
          obtain ⟨-, h1, h2⟩ := hstep
          subst h1 h2
          exact ⟨hInv, fun _ => hdone, hb⟩
        | cons b bs =>
          rw [hb] at hstep
          have hf := parseStep_facts p req b bs c p' req' hInv hdone hstep
          exact ⟨hf.1, hf.2.1, hf.2.2.trans hb⟩
      obtain ⟨hInv', hc0, hbuf⟩ := hfacts
      dsimp only at hrun ⊢
      by_cases hcpos : 0 < c
      · rw [if_pos hcpos] at hrun ⊢
        apply ih L M { p' with buffer := p'.buffer.drop c } req' reads r hne
          hInv' _ hrun
        have hdl : (p'.buffer.drop c).length ≤ p.buffer.length := by
          rw [hbuf]
          simp
        simp only [List.length_drop] at hdl ⊢
        omega
      · rw [if_neg hcpos] at hrun ⊢
        have hnd' : p'.state ≠ .done := hc0 (by omega)
        rcases readDecision_cases M p' req' reads with
          ⟨e, hcase⟩ | ⟨-, hst, -⟩ | ⟨cs, rest, hreads, -, -, hcase⟩
        · rw [hcase] at hrun
          simp at hrun
        · exact absurd hst hnd'
        · rw [hcase] at hrun
          dsimp only at hrun
          have hcs : cs ≠ [] := hne cs (by rw [hreads]; simp)
          have hcslen : 1 ≤ cs.length := by
            cases cs with
            | nil => exact absurd rfl hcs
            | cons x xs => simp
          have hsum : p.buffer.length + (cs.length + sumLen rest) ≤ L := by
            rw [hreads] at hsize
            simpa [sumLen] using hsize
          have hL1 : ¬ (p'.state ≠ .body ∧ p'.buffer.length ≥ L) := by
            rw [hbuf]
            rintro ⟨-, hge⟩
            omega
          have hL2 : ¬ (p'.state ≠ .body ∧ p'.buffer.length + cs.length > L) := by
            rw [hbuf]
            rintro ⟨-, hgt⟩
            omega
          rw [hreads, readDecision_inr L p' req' cs rest hL1 hL2]
          dsimp only
          apply ih L M
            { p' with buffer := p'.buffer ++ cs,
                      totalBytesRead := p'.totalBytesRead + cs.length }
            req' rest r _ hInv' _ hrun
          · intro x hx
            exact hne x (by rw [hreads]; exact List.mem_cons_of_mem cs hx)
          · simp only [List.length_append, hbuf]
            omega

/-- When the first read alone already exceeds the limit, the parser
fails with `ErrHeaderTooLarge` before parsing anything. -/
theorem runFromReader_first_read_too_large (limit : Nat) (mb : Int)
    (bs : List Char) (fuel : Nat) (hlen : bs.length > limit)
    (hlim : 1 ≤ limit) :
    runFromReader limit (newParser mb) NewRequest [bs] (fuel + 1) =
      .error .headerTooLarge := by
  rw [runFromReader]
  rw [if_neg (show ¬ ((newParser mb).state = PState.done) by
    simp [newParser])]
  rw [show stepOf (newParser mb) NewRequest =
    .ok (0, newParser mb, NewRequest) from rfl]
  dsimp only
  rw [if_neg (lt_irrefl 0)]
  unfold readDecision
  rw [if_neg (show ¬ ((newParser mb).state ≠ .body ∧
      (newParser mb).buffer.length ≥ limit) by
    rintro ⟨-, hge⟩
    simp [newParser] at hge
    omega)]
  dsimp only
  rw [if_pos (show (newParser mb).state ≠ .body ∧
      (newParser mb).buffer.length + bs.length > limit from
    ⟨by simp [newParser], by simp [newParser]; omega⟩)]

/-- C8 (amended): the configured `maxHeaderBytes` bounds the *unparsed
buffer*, not the cumulative header bytes.  For a request delivered to
the parser in a single read: if it parses under any limit, it still
parses with the limit set exactly to its byte count; with the limit one
byte lower it fails with the header-too-large error. -/
theorem c8_single_read_boundary :
    (∀ (bs : List Char) (r : Request) (M mb : Int), bs ≠ [] →
      RequestFromReaderWithConfig [bs] M mb = .ok r →
      RequestFromReaderWithConfig [bs] (bs.length : Int) mb = .ok r) ∧
    (∀ (bs : List Char) (mb : Int), 2 ≤ bs.length →
      RequestFromReaderWithConfig [bs] ((bs.length : Int) - 1) mb =
        .error .headerTooLarge) := by
  constructor
  · intro bs r M mb hbs hok
    unfold RequestFromReaderWithConfig parseFromReader at hok ⊢
    dsimp only at hok ⊢
    have hlen0 : bs.length ≠ 0 := fun h => hbs (List.length_eq_zero.mp h)
    rw [if_neg (show ¬ ((bs.length : Int) ≤ 0) by omega)]
    rw [show ((bs.length : Int)).toNat = bs.length from by omega]
    apply runFromReader_limit_mono _ bs.length _ (newParser mb) NewRequest
      [bs] r _ _ _ hok
    · intro cs hcs
      rw [List.mem_singleton] at hcs
      rw [hcs]
      exact hbs
    · exact ⟨fun _ => ⟨rfl, rfl⟩, fun hb => by simp [newParser] at hb⟩
    · simp [newParser, sumLen]
  · intro bs mb h2
    unfold RequestFromReaderWithConfig parseFromReader
    dsimp only
    rw [if_neg (show ¬ ((bs.length : Int) - 1 ≤ 0) by omega)]
    rw [show ((bs.length : Int) - 1).toNat = bs.length - 1 from by omega]
    exact runFromReader_first_read_too_large (bs.length - 1) mb bs _
      (by omega) (by omega)

/-- C8 counterexample: a 24-byte request head (16-byte request line, one
6-byte header line, 2-byte terminator) with `maxHeaderBytes = 23` — one
byte over — still parses successfully when the reads are split at the
request-line boundary, because each read's buffered remainder stays
under the limit; so "one byte over the maximum fails" is false for the
cumulative header bytes. -/
theorem c8_counterexample :
    sumLen ["GET / HTTP/1.1\r\n".data, "A: b\r\n\r\n".data] = 24 ∧
    RequestFromReaderWithConfig
      ["GET / HTTP/1.1\r\n".data, "A: b\r\n\r\n".data] 23 (10 <<< 20) =
      .ok { Method := "GET", Path := "/", Version := "HTTP/1.1",
            Headers :=
              { headers := [("a", ["b"])],
                tracking := { headerCount := 1, totalSize := 4 } } } := by
  decide

/-- C8 witness: the amended boundary statement applied to a concrete
18-byte request: it parses with the limit at 18 and fails with
header-too-large at 17. -/
theorem c8_witness :
    RequestFromReaderWithConfig ["GET / HTTP/1.1\r\n\r\n".data] 18
      (10 <<< 20) =
      .ok { Method := "GET", Path := "/", Version := "HTTP/1.1" } ∧
    RequestFromReaderWithConfig ["GET / HTTP/1.1\r\n\r\n".data] 17
      (10 <<< 20) = .error .headerTooLarge :=
  ⟨c8_single_read_boundary.1 "GET / HTTP/1.1\r\n\r\n".data
      { Method := "GET", Path := "/", Version := "HTTP/1.1" }
      (1 <<< 20) (10 <<< 20) (by decide) (by decide),
   c8_single_read_boundary.2 "GET / HTTP/1.1\r\n\r\n".data (10 <<< 20)
      (by decide)⟩

/-! ### C10: mutators never touch the tracking state -/

/-- C10: `Set`, `Add` and `Del` rewrite only the value map; the tracking
state — `IsChunked`, duplicate flags, the recorded Content-Length — is
untouched, so `Add("transfer-encoding", "chunked")` does not flip
`IsChunked()` and `Del("content-length")` does not change
`ContentLength()`. -/
theorem c10_mutators_preserve_tracking (h : Headers) (k v : String) :
    (h.Set k v).tracking = h.tracking ∧
    (h.Add k v).tracking = h.tracking ∧
    (h.Del k).tracking = h.tracking ∧
    (h.Add "transfer-encoding" "chunked").IsChunked = h.IsChunked ∧
    (h.Add "host" v).tracking = h.tracking ∧
    (h.Del "content-length").ContentLength = h.ContentLength := by
  exact ⟨rfl, rfl, rfl, rfl, rfl, rfl⟩

end Http
